import Mathlib

/-!
Verification of the handle-bridging mesh operator (src/make_handle.py and
src/main.py) against its natural-language specification.

Modelling conventions:
- Python floats are modelled as real numbers.
- A mathutils Vector is modelled as the structure Vec3 below; mathutils
  operations (dot, cross, length, length_squared, normalized) are modelled
  from their documented semantics (normalized of a zero vector is the zero
  vector).
- math.atan2 sin cos is modelled as the argument of the complex number
  cos + sin i, which lies in (-pi, pi] and is 0 at the origin, matching the
  mathematical semantics of atan2 on reals.
- Python list indexing that is always in range under the hypotheses of the
  theorems is modelled with List.getD; indexing that can go out of range in
  ways a claim depends on (interpolate_polar_polygons) is modelled with
  Option so that an IndexError becomes none.
-/

/-- A 3D vector with real coordinates, modelling a mathutils Vector of three
floats. -/
@[ext]
structure Vec3 where
  x : ℝ
  y : ℝ
  z : ℝ

namespace Vec3

instance : Zero Vec3 := ⟨⟨0, 0, 0⟩⟩

instance : Add Vec3 := ⟨fun a b => ⟨a.x + b.x, a.y + b.y, a.z + b.z⟩⟩

instance : Sub Vec3 := ⟨fun a b => ⟨a.x - b.x, a.y - b.y, a.z - b.z⟩⟩

instance : Neg Vec3 := ⟨fun a => ⟨-a.x, -a.y, -a.z⟩⟩

instance : SMul ℝ Vec3 := ⟨fun r a => ⟨r * a.x, r * a.y, r * a.z⟩⟩

instance : Inhabited Vec3 := ⟨0⟩

@[simp] theorem zero_x : (0 : Vec3).x = 0 := rfl

@[simp] theorem zero_y : (0 : Vec3).y = 0 := rfl

@[simp] theorem zero_z : (0 : Vec3).z = 0 := rfl

@[simp] theorem add_x (a b : Vec3) : (a + b).x = a.x + b.x := rfl

@[simp] theorem add_y (a b : Vec3) : (a + b).y = a.y + b.y := rfl

@[simp] theorem add_z (a b : Vec3) : (a + b).z = a.z + b.z := rfl

@[simp] theorem sub_x (a b : Vec3) : (a - b).x = a.x - b.x := rfl

@[simp] theorem sub_y (a b : Vec3) : (a - b).y = a.y - b.y := rfl

@[simp] theorem sub_z (a b : Vec3) : (a - b).z = a.z - b.z := rfl

@[simp] theorem neg_x (a : Vec3) : (-a).x = -a.x := rfl

@[simp] theorem neg_y (a : Vec3) : (-a).y = -a.y := rfl

@[simp] theorem neg_z (a : Vec3) : (-a).z = -a.z := rfl

@[simp] theorem smul_x (r : ℝ) (a : Vec3) : (r • a).x = r * a.x := rfl

@[simp] theorem smul_y (r : ℝ) (a : Vec3) : (r • a).y = r * a.y := rfl

@[simp] theorem smul_z (r : ℝ) (a : Vec3) : (r • a).z = r * a.z := rfl

/-- Dot product of two vectors (mathutils Vector.dot). -/
def dot (a b : Vec3) : ℝ := a.x * b.x + a.y * b.y + a.z * b.z

/-- Cross product of two vectors (mathutils Vector.cross). -/
def cross (a b : Vec3) : Vec3 :=
  ⟨a.y * b.z - a.z * b.y, a.z * b.x - a.x * b.z, a.x * b.y - a.y * b.x⟩

/-- Squared length of a vector (mathutils Vector.length_squared). -/
def length_squared (v : Vec3) : ℝ := dot v v

/-- Length of a vector (mathutils Vector.length). -/
noncomputable def length (v : Vec3) : ℝ := Real.sqrt (dot v v)

/-- Normalization (mathutils Vector.normalized): returns the zero vector
unchanged when the length is zero. -/
noncomputable def normalize (v : Vec3) : Vec3 :=
  if length v = 0 then v else (length v)⁻¹ • v

theorem dot_comm (a b : Vec3) : dot a b = dot b a := by
  simp only [dot]; ring

theorem dot_add_left (a b c : Vec3) : dot (a + b) c = dot a c + dot b c := by
  simp only [dot, add_x, add_y, add_z]; ring

theorem dot_smul_left (r : ℝ) (a b : Vec3) : dot (r • a) b = r * dot a b := by
  simp only [dot, smul_x, smul_y, smul_z]; ring

theorem dot_self_eq_zero_iff (v : Vec3) : dot v v = 0 ↔ v = 0 := by
  constructor
  · intro h
    simp only [dot] at h
    have hx : v.x = 0 := by nlinarith [sq_nonneg v.x, sq_nonneg v.y, sq_nonneg v.z]
    have hy : v.y = 0 := by nlinarith [sq_nonneg v.x, sq_nonneg v.y, sq_nonneg v.z]
    have hz : v.z = 0 := by nlinarith [sq_nonneg v.x, sq_nonneg v.y, sq_nonneg v.z]
    ext <;> simp [hx, hy, hz]
  · intro h
    simp [h, dot]

theorem dot_self_nonneg (v : Vec3) : 0 ≤ dot v v := by
  simp only [dot]
  nlinarith [sq_nonneg v.x, sq_nonneg v.y, sq_nonneg v.z]

theorem length_eq_zero_iff (v : Vec3) : length v = 0 ↔ v = 0 := by
  rw [length, Real.sqrt_eq_zero (dot_self_nonneg v)]
  exact dot_self_eq_zero_iff v

end Vec3

/-- Model of math.atan2: the argument of the complex number x + y i, which is
in the interval (-pi, pi] and is 0 when both arguments are 0. -/
noncomputable def atan2 (y x : ℝ) : ℝ := Complex.arg ⟨x, y⟩

namespace MakeHandle

/-- The unique cubic with value 1 at 0, value 0 at 1 and zero derivative at
both ends (hermite_1 in make_handle.py, identically in main.py). -/
def hermite_1 (t : ℝ) : ℝ := 2 * t * t * t - 3 * t * t + 1

/-- The unique cubic with value 0 at both ends, derivative 1 at 0 and 0 at 1
(hermite_2 in make_handle.py, identically in main.py). -/
def hermite_2 (t : ℝ) : ℝ := t * t * t - 2 * t * t + t

/-- Derivative of hermite_1 (hermite_1_derivative in the source). -/
def hermite_1_derivative (t : ℝ) : ℝ := 3 * 2 * t * t - 2 * 3 * t

/-- Derivative of hermite_2 (hermite_2_derivative in the source). -/
def hermite_2_derivative (t : ℝ) : ℝ := 3 * t * t - 2 * 2 * t + 1

/-- Cyclic rotation of a list (rotate_list in make_handle.py): Python slicing
the_list[n:] + the_list[:n] for a nonnegative index n. -/
def rotate_list {α : Type} (the_list : List α) (n : ℕ) : List α :=
  the_list.drop n ++ the_list.take n

/-- Rotation of a vector about an axis by an angle. Models the composite
mathutils.Quaternion(axis, angle).to_matrix() applied to a vector: mathutils
normalizes the axis and builds the rotation by the given angle about it; this
is the Rodrigues rotation formula with the normalized axis. -/
noncomputable def rotate_about_axis (axis : Vec3) (angle : ℝ) (v : Vec3) : Vec3 :=
  let k := Vec3.normalize axis
  Real.cos angle • v + Real.sin angle • Vec3.cross k v
    + ((1 - Real.cos angle) * Vec3.dot k v) • k

/-- rotate_polygon_to_new_normal from the source: rotates every vertex by the
rotation taking the normalized old normal onto the normalized new normal,
returning the list unchanged when the cross product of the two normalized
normals has squared length below 1e-3. -/
noncomputable def rotate_polygon_to_new_normal
    (vertices : List Vec3) (old_normal new_normal : Vec3) : List Vec3 :=
  let old_normal_normalized := Vec3.normalize old_normal
  let new_normal_normalized := Vec3.normalize new_normal
  let axis := Vec3.cross old_normal_normalized new_normal_normalized
  if Vec3.length_squared axis < 1 / 1000 then
    vertices
  else
    let cos_angle := Vec3.dot old_normal_normalized new_normal_normalized
    let sin_angle := Vec3.length axis
    let angle := atan2 sin_angle cos_angle
    vertices.map (rotate_about_axis axis angle)

/-- Closed form of the unwrapping loop in convert_polygon_to_polar
(make_handle.py): while angle < last_angle, add 2 pi to angle. The loop adds
2 pi the least number of times that makes the angle at least last_angle, and
runs zero times when the angle is already at least last_angle; that count is
the natural-number ceiling of (last_angle - angle) / (2 pi). -/
noncomputable def unwrap_angle (angle last_angle : ℝ) : ℝ :=
  angle + 2 * Real.pi * (Nat.ceil ((last_angle - angle) / (2 * Real.pi)) : ℝ)

/-- The loop of convert_polygon_to_polar (make_handle.py), with the running
last_angle accumulator made explicit: each vertex contributes the pair of its
3D length and its unwrapped atan2 angle in the given basis, and the unwrapped
angle becomes the next last_angle. -/
noncomputable def convert_polygon_to_polar_loop (x_axis y_axis : Vec3) :
    List Vec3 → ℝ → List (ℝ × ℝ)
  | [], _ => []
  | vertex :: rest, last_angle =>
    let cos_angle := Vec3.dot vertex x_axis
    let sin_angle := Vec3.dot vertex y_axis
    let radius := Vec3.length vertex
    let angle := unwrap_angle (atan2 sin_angle cos_angle) last_angle
    (radius, angle) :: convert_polygon_to_polar_loop x_axis y_axis rest angle

/-- convert_polygon_to_polar from make_handle.py: project each vertex onto the
plane of the given basis, take (radius, angle) with the angle unwrapped to be
at least the previous unwrapped angle; last_angle starts at 0. -/
noncomputable def convert_polygon_to_polar
    (vertices : List Vec3) (x_axis y_axis : Vec3) : List (ℝ × ℝ) :=
  convert_polygon_to_polar_loop x_axis y_axis vertices 0

/-- convert_polar_to_polygon from make_handle.py: each (radius, angle) pair
maps to radius times (x_axis cos angle + y_axis sin angle). -/
noncomputable def convert_polar_to_polygon
    (polar_polygon : List (ℝ × ℝ)) (x_axis y_axis : Vec3) : List Vec3 :=
  polar_polygon.map fun p =>
    p.1 • (Real.cos p.2 • x_axis + Real.sin p.2 • y_axis)

/-- interpolate_polar_polygons from make_handle.py (identical in main.py): the
source loops i over the indices of the first list and reads both lists at i,
appending the componentwise linear interpolation. Reading the second list out
of range raises IndexError; this is modelled by simultaneous structural
recursion returning none exactly when the second list runs out before the
first. -/
def interpolate_polar_polygons :
    List (ℝ × ℝ) → List (ℝ × ℝ) → ℝ → Option (List (ℝ × ℝ))
  | [], _, _ => some []
  | _ :: _, [], _ => none
  | p :: ps, q :: qs, t =>
    (interpolate_polar_polygons ps qs t).map fun rest =>
      (p.1 * (1 - t) + q.1 * t, p.2 * (1 - t) + q.2 * t) :: rest

/-- get_handle_centroid from the source: Hermite blend of the two centroids
plus the weighted normal terms. -/
def get_handle_centroid
    (centroid_1 normal_1 centroid_2 normal_2 : Vec3) (t weight : ℝ) : Vec3 :=
  hermite_1 t • centroid_1
    + hermite_1 (1 - t) • centroid_2
    + (weight * hermite_2 t) • normal_1
    - (weight * hermite_2 (1 - t)) • normal_2

/-- get_handle_normal from the source: the derivative of get_handle_centroid
in t, normalized. -/
noncomputable def get_handle_normal
    (centroid_1 normal_1 centroid_2 normal_2 : Vec3) (t weight : ℝ) : Vec3 :=
  Vec3.normalize
    (hermite_1_derivative t • centroid_1
      + (-hermite_1_derivative (1 - t)) • centroid_2
      + (weight * hermite_2_derivative t) • normal_1
      - (weight * -hermite_2_derivative (1 - t)) • normal_2)

end MakeHandle

namespace MakeHandle

theorem le_unwrap_angle (angle last_angle : ℝ) :
    last_angle ≤ unwrap_angle angle last_angle := by
  have h2pi : (0:ℝ) < 2 * Real.pi := Real.two_pi_pos
  have hceil := Nat.le_ceil ((last_angle - angle) / (2 * Real.pi))
  have h := (div_le_iff₀ h2pi).mp hceil
  unfold unwrap_angle
  linarith

theorem unwrap_angle_eq_add (angle last_angle : ℝ) :
    ∃ k : ℕ, unwrap_angle angle last_angle = angle + 2 * Real.pi * k :=
  ⟨Nat.ceil ((last_angle - angle) / (2 * Real.pi)), rfl⟩

theorem unwrap_angle_of_le (angle last_angle : ℝ) (h : last_angle ≤ angle) :
    unwrap_angle angle last_angle = angle := by
  have h2pi : (0:ℝ) < 2 * Real.pi := Real.two_pi_pos
  have hle : (last_angle - angle) / (2 * Real.pi) ≤ 0 :=
    div_nonpos_of_nonpos_of_nonneg (by linarith) (le_of_lt h2pi)
  unfold unwrap_angle
  rw [Nat.ceil_eq_zero.mpr hle]
  simp

theorem convert_polygon_to_polar_loop_chain (x_axis y_axis : Vec3)
    (vertices : List Vec3) (last_angle : ℝ) :
    List.Chain' (· ≤ ·) (last_angle ::
      (convert_polygon_to_polar_loop x_axis y_axis vertices last_angle).map Prod.snd) := by
  induction vertices generalizing last_angle with
  | nil => simp [convert_polygon_to_polar_loop]
  | cons v rest ih =>
    simp only [convert_polygon_to_polar_loop, List.map_cons]
    exact List.Chain'.cons (le_unwrap_angle _ _) (ih _)

/-- Claim C2: for every ordered list of vertices and every basis, the angle
components of the list returned by convert_polygon_to_polar (make_handle.py)
are monotonically non-decreasing and the first angle is at least 0. Both
facts are packaged as a chain of inequalities starting from 0, which says
exactly that 0 is at most the first angle and each angle is at most the
next. -/
theorem convert_polygon_to_polar_angles_monotone
    (vertices : List Vec3) (x_axis y_axis : Vec3) :
    List.Chain' (· ≤ ·) ((0:ℝ) ::
      (convert_polygon_to_polar vertices x_axis y_axis).map Prod.snd) :=
  convert_polygon_to_polar_loop_chain x_axis y_axis vertices 0

/-- Claim C8: with weight 0 and t one half, get_handle_centroid is exactly the
midpoint of the two centroids; moreover hermite_1 at one half is one half, and
the normal contribution vanishes because both normal terms carry the factor
weight. -/
theorem get_handle_centroid_weight_zero_midpoint (c1 n1 c2 n2 : Vec3) :
    hermite_1 (1/2 : ℝ) = 1/2 ∧
      get_handle_centroid c1 n1 c2 n2 (1/2) 0 =
        (1/2 : ℝ) • c1 + (1/2 : ℝ) • c2 := by
  constructor
  · norm_num [hermite_1]
  · ext <;> simp [get_handle_centroid, hermite_1, hermite_2] <;> ring

/-- Counterexample to claim C1: with a first polar polygon of length 1 and a
second of length 2 (lengths differ), interpolate_polar_polygons returns a
result instead of failing. -/
theorem interpolate_length_mismatch_counterexample :
    (interpolate_polar_polygons [((1:ℝ), 2)] [((3:ℝ), 4), ((5:ℝ), 6)] 0).isSome
      = true := rfl

/-- Claim C1 (amended): interpolate_polar_polygons performs no length check;
it fails (Python IndexError, modelled as none) exactly when the first polar
polygon is strictly longer than the second, and returns a result whenever the
first is no longer than the second, even when the lengths differ. -/
theorem interpolate_polar_polygons_none_iff
    (p1 p2 : List (ℝ × ℝ)) (t : ℝ) :
    interpolate_polar_polygons p1 p2 t = none ↔ p2.length < p1.length := by
  induction p1 generalizing p2 with
  | nil => cases p2 <;> simp [interpolate_polar_polygons]
  | cons p ps ih =>
    cases p2 with
    | nil => simp [interpolate_polar_polygons]
    | cons q qs =>
      simp [interpolate_polar_polygons, Option.map_eq_none', ih qs,
        Nat.succ_lt_succ_iff]

/-- Claim C9: whenever the first polar polygon is no longer than the second,
interpolate_polar_polygons succeeds, the result has the length of the first
list, and extra trailing entries appended to the second list do not change the
result. -/
theorem interpolate_polar_polygons_shorter_first
    (t : ℝ) (p1 p2 : List (ℝ × ℝ)) (h : p1.length ≤ p2.length) :
    ∃ r, interpolate_polar_polygons p1 p2 t = some r ∧
      r.length = p1.length ∧
      ∀ extra, interpolate_polar_polygons p1 (p2 ++ extra) t = some r := by
  induction p1 generalizing p2 with
  | nil =>
    exact ⟨[], rfl, rfl, fun extra => rfl⟩
  | cons p ps ih =>
    cases p2 with
    | nil => simp at h
    | cons q qs =>
      obtain ⟨r, hr, hlen, hext⟩ := ih qs (Nat.le_of_succ_le_succ h)
      refine ⟨(p.1 * (1 - t) + q.1 * t, p.2 * (1 - t) + q.2 * t) :: r, ?_, ?_, ?_⟩
      · simp [interpolate_polar_polygons, hr]
      · simp [hlen]
      · intro extra
        simp [interpolate_polar_polygons, hext extra]

/-- Witness for claim C9 at a concrete input: a singleton first list and a
two-element second list. -/
theorem interpolate_polar_polygons_shorter_first_witness :
    ([((1:ℝ), 2)].length ≤ [((3:ℝ), 4), ((5:ℝ), 6)].length) ∧
      ∃ r, interpolate_polar_polygons [((1:ℝ), 2)] [((3:ℝ), 4), ((5:ℝ), 6)] 0
          = some r ∧
        r.length = [((1:ℝ), 2)].length ∧
        ∀ extra,
          interpolate_polar_polygons [((1:ℝ), 2)]
            ([((3:ℝ), 4), ((5:ℝ), 6)] ++ extra) 0 = some r :=
  ⟨by decide,
    interpolate_polar_polygons_shorter_first 0 [((1:ℝ), 2)]
      [((3:ℝ), 4), ((5:ℝ), 6)] (by decide)⟩

end MakeHandle

namespace MainPy

/-- convert_polygon_to_polar from main.py. Unlike the make_handle.py variant,
the running variable last_angle is initialized to 0.0 and never reassigned in
the loop body, so every angle is compared against 0 and corrected by a single
addition of 2 pi when negative; the correction of one vertex never influences
the next. -/
noncomputable def convert_polygon_to_polar
    (vertices : List Vec3) (x_axis y_axis : Vec3) : List (ℝ × ℝ) :=
  let last_angle : ℝ := 0
  vertices.map fun vertex =>
    let cos_angle := Vec3.dot vertex x_axis
    let sin_angle := Vec3.dot vertex y_axis
    let radius := Vec3.length vertex
    let angle := atan2 sin_angle cos_angle
    let angle := if angle < last_angle then angle + 2 * Real.pi else angle
    (radius, angle)

end MainPy

/-- Counterexample to claim C10: on the two-vertex list below, the make_handle
variant unwraps the second angle to 2 pi (because the first angle was pi / 2),
while the main.py variant leaves it at 0, so the two variants return different
lists. -/
theorem convert_polygon_to_polar_variants_counterexample :
    MakeHandle.convert_polygon_to_polar
        [⟨0, 1, 0⟩, ⟨1, 0, 0⟩] ⟨1, 0, 0⟩ ⟨0, 1, 0⟩ ≠
      MainPy.convert_polygon_to_polar
        [⟨0, 1, 0⟩, ⟨1, 0, 0⟩] ⟨1, 0, 0⟩ ⟨0, 1, 0⟩ := by
  have hpi := Real.pi_pos
  have hI : (⟨0, 1⟩ : ℂ) = Complex.I := by
    apply Complex.ext <;> simp
  have h1 : (⟨1, 0⟩ : ℂ) = 1 := by
    apply Complex.ext <;> simp
  have hatanI : atan2 1 0 = Real.pi / 2 := by rw [atan2, hI, Complex.arg_I]
  have hatan1 : atan2 0 1 = 0 := by rw [atan2, h1, Complex.arg_one]
  have hd1x : Vec3.dot ⟨0, 1, 0⟩ ⟨1, 0, 0⟩ = 0 := by norm_num [Vec3.dot]
  have hd1y : Vec3.dot ⟨0, 1, 0⟩ ⟨0, 1, 0⟩ = 1 := by norm_num [Vec3.dot]
  have hd2x : Vec3.dot ⟨1, 0, 0⟩ ⟨1, 0, 0⟩ = 1 := by norm_num [Vec3.dot]
  have hd2y : Vec3.dot ⟨1, 0, 0⟩ ⟨0, 1, 0⟩ = 0 := by norm_num [Vec3.dot]
  have hu1 : MakeHandle.unwrap_angle (Real.pi / 2) 0 = Real.pi / 2 :=
    MakeHandle.unwrap_angle_of_le _ _ (by linarith)
  have hu2 : MakeHandle.unwrap_angle 0 (Real.pi / 2) = 2 * Real.pi := by
    have hq : (Real.pi / 2 - 0) / (2 * Real.pi) = 1 / 4 := by
      rw [sub_zero]
      rw [div_eq_iff (by positivity)]
      ring
    unfold MakeHandle.unwrap_angle
    rw [hq]
    have : Nat.ceil ((1:ℝ) / 4) = 1 := by
      rw [Nat.ceil_eq_iff (by norm_num)]
      norm_num
    rw [this]
    norm_num
  have hmh : MakeHandle.convert_polygon_to_polar
      [⟨0, 1, 0⟩, ⟨1, 0, 0⟩] ⟨1, 0, 0⟩ ⟨0, 1, 0⟩ =
      [(Vec3.length ⟨0, 1, 0⟩, Real.pi / 2),
       (Vec3.length ⟨1, 0, 0⟩, 2 * Real.pi)] := by
    simp only [MakeHandle.convert_polygon_to_polar,
      MakeHandle.convert_polygon_to_polar_loop, hd1x, hd1y, hd2x, hd2y,
      hatanI, hatan1, hu1, hu2]
  have hmain : MainPy.convert_polygon_to_polar
      [⟨0, 1, 0⟩, ⟨1, 0, 0⟩] ⟨1, 0, 0⟩ ⟨0, 1, 0⟩ =
      [(Vec3.length ⟨0, 1, 0⟩, Real.pi / 2),
       (Vec3.length ⟨1, 0, 0⟩, 0)] := by
    simp only [MainPy.convert_polygon_to_polar, List.map_cons, List.map_nil,
      hd1x, hd1y, hd2x, hd2y, hatanI, hatan1]
    rw [if_neg (by linarith), if_neg (by linarith)]
  rw [hmh, hmain]
  intro h
  simp only [List.cons.injEq, Prod.mk.injEq] at h
  have : 2 * Real.pi = 0 := h.2.1.2
  linarith

/-- Claim C10 (amended): the two variants of convert_polygon_to_polar return
lists of the same length with identical radii, and corresponding angles that
agree modulo 2 pi; but the angle values themselves can differ from the second
vertex on, because main.py corrects each angle once against the constant 0
while make_handle.py unwraps cumulatively against the previous unwrapped
angle. -/
theorem convert_polygon_to_polar_variants_agree_mod_two_pi
    (vertices : List Vec3) (x_axis y_axis : Vec3) :
    List.Forall₂
      (fun p q : ℝ × ℝ => p.1 = q.1 ∧ ∃ k : ℤ, p.2 = q.2 + 2 * Real.pi * k)
      (MakeHandle.convert_polygon_to_polar vertices x_axis y_axis)
      (MainPy.convert_polygon_to_polar vertices x_axis y_axis) := by
  suffices h : ∀ last_angle : ℝ,
      List.Forall₂
        (fun p q : ℝ × ℝ => p.1 = q.1 ∧ ∃ k : ℤ, p.2 = q.2 + 2 * Real.pi * k)
        (MakeHandle.convert_polygon_to_polar_loop x_axis y_axis vertices
          last_angle)
        (MainPy.convert_polygon_to_polar vertices x_axis y_axis) by
    exact h 0
  induction vertices with
  | nil =>
    intro last_angle
    simp [MakeHandle.convert_polygon_to_polar_loop,
      MainPy.convert_polygon_to_polar]
  | cons v rest ih =>
    intro last_angle
    simp only [MakeHandle.convert_polygon_to_polar_loop,
      MainPy.convert_polygon_to_polar, List.map_cons]
    refine List.Forall₂.cons ⟨rfl, ?_⟩ (ih _)
    obtain ⟨k, hk⟩ := MakeHandle.unwrap_angle_eq_add
      (atan2 (Vec3.dot v y_axis) (Vec3.dot v x_axis)) last_angle
    by_cases hneg : atan2 (Vec3.dot v y_axis) (Vec3.dot v x_axis) < 0
    · refine ⟨(k : ℤ) - 1, ?_⟩
      rw [hk, if_pos hneg]
      push_cast
      ring
    · refine ⟨(k : ℤ), ?_⟩
      rw [hk, if_neg hneg]
      push_cast
      ring

namespace MakeHandle

theorem dot_in_plane (x_axis y_axis : Vec3)
    (hx : Vec3.dot x_axis x_axis = 1) (hy : Vec3.dot y_axis y_axis = 1)
    (hxy : Vec3.dot x_axis y_axis = 0) (a b : ℝ) :
    Vec3.dot (a • x_axis + b • y_axis) x_axis = a ∧
      Vec3.dot (a • x_axis + b • y_axis) y_axis = b ∧
      Vec3.dot (a • x_axis + b • y_axis) (a • x_axis + b • y_axis)
        = a ^ 2 + b ^ 2 := by
  have hyx : Vec3.dot y_axis x_axis = 0 := by rw [Vec3.dot_comm]; exact hxy
  have h1 : Vec3.dot (a • x_axis + b • y_axis) x_axis = a := by
    rw [Vec3.dot_add_left, Vec3.dot_smul_left, Vec3.dot_smul_left, hx, hyx]
    ring
  have h2 : Vec3.dot (a • x_axis + b • y_axis) y_axis = b := by
    rw [Vec3.dot_add_left, Vec3.dot_smul_left, Vec3.dot_smul_left, hy, hxy]
    ring
  refine ⟨h1, h2, ?_⟩
  rw [Vec3.dot_comm, Vec3.dot_add_left, Vec3.dot_smul_left, Vec3.dot_smul_left,
    Vec3.dot_comm x_axis _, Vec3.dot_comm y_axis _, h1, h2]
  ring

theorem round_trip_point (x_axis y_axis : Vec3)
    (hx : Vec3.dot x_axis x_axis = 1) (hy : Vec3.dot y_axis y_axis = 1)
    (hxy : Vec3.dot x_axis y_axis = 0) (a b : ℝ) (hab : (⟨a, b⟩ : ℂ) ≠ 0)
    (last_angle : ℝ) :
    Vec3.length (a • x_axis + b • y_axis) •
      (Real.cos (unwrap_angle
          (atan2 (Vec3.dot (a • x_axis + b • y_axis) y_axis)
            (Vec3.dot (a • x_axis + b • y_axis) x_axis)) last_angle) • x_axis
        + Real.sin (unwrap_angle
          (atan2 (Vec3.dot (a • x_axis + b • y_axis) y_axis)
            (Vec3.dot (a • x_axis + b • y_axis) x_axis)) last_angle) • y_axis)
      = a • x_axis + b • y_axis := by
  obtain ⟨hvx, hvy, hvv⟩ := dot_in_plane x_axis y_axis hx hy hxy a b
  have habs : Complex.abs ⟨a, b⟩ = Real.sqrt (a ^ 2 + b ^ 2) := by
    rw [Complex.abs_apply, Complex.normSq_mk]
    congr 1
    ring
  have hlen : Vec3.length (a • x_axis + b • y_axis) = Complex.abs ⟨a, b⟩ := by
    rw [Vec3.length, hvv, habs]
  have hane : Complex.abs (⟨a, b⟩ : ℂ) ≠ 0 := by
    simpa using hab
  rw [hvx, hvy]
  obtain ⟨k, hk⟩ := unwrap_angle_eq_add (atan2 b a) last_angle
  have hcos : Real.cos (unwrap_angle (atan2 b a) last_angle)
      = a / Complex.abs ⟨a, b⟩ := by
    rw [hk, show atan2 b a + 2 * Real.pi * (k : ℝ)
        = atan2 b a + (k : ℝ) * (2 * Real.pi) by ring,
      Real.cos_add_nat_mul_two_pi]
    exact Complex.cos_arg hab
  have hsin : Real.sin (unwrap_angle (atan2 b a) last_angle)
      = b / Complex.abs ⟨a, b⟩ := by
    rw [hk, show atan2 b a + 2 * Real.pi * (k : ℝ)
        = atan2 b a + (k : ℝ) * (2 * Real.pi) by ring,
      Real.sin_add_nat_mul_two_pi]
    exact Complex.sin_arg ⟨a, b⟩
  rw [hcos, hsin, hlen]
  ext <;> simp <;> field_simp

theorem round_trip_loop (x_axis y_axis : Vec3)
    (hx : Vec3.dot x_axis x_axis = 1) (hy : Vec3.dot y_axis y_axis = 1)
    (hxy : Vec3.dot x_axis y_axis = 0) :
    ∀ (vertices : List Vec3),
      (∀ v ∈ vertices, Vec3.length v ≠ 0 ∧
        ∃ a b : ℝ, v = a • x_axis + b • y_axis) →
      ∀ last_angle,
        convert_polar_to_polygon
          (convert_polygon_to_polar_loop x_axis y_axis vertices last_angle)
          x_axis y_axis = vertices := by
  intro vertices
  induction vertices with
  | nil => intro _ _; rfl
  | cons v rest ih =>
    intro hmem last_angle
    obtain ⟨hvne, a, b, hv⟩ := hmem v (List.mem_cons_self v rest)
    have hab : (⟨a, b⟩ : ℂ) ≠ 0 := by
      intro h0
      have hns : Complex.normSq ⟨a, b⟩ = 0 := by rw [h0]; simp
      rw [Complex.normSq_mk] at hns
      have hdot : Vec3.dot v v = 0 := by
        rw [hv, (dot_in_plane x_axis y_axis hx hy hxy a b).2.2]
        nlinarith [hns]
      exact hvne (by rw [Vec3.length, hdot, Real.sqrt_zero])
    simp only [convert_polygon_to_polar_loop, convert_polar_to_polygon,
      List.map_cons]
    rw [← convert_polar_to_polygon]
    rw [ih (fun w hw => hmem w (List.mem_cons_of_mem v hw)) _]
    congr 1
    rw [hv]
    exact round_trip_point x_axis y_axis hx hy hxy a b hab last_angle

/-- Claim C3 (amended): when the basis vectors are orthonormal and every
vertex lies in the plane they span (and has non-zero radius),
convert_polygon_to_polar followed by convert_polar_to_polygon with the same
basis reproduces the original points exactly. Without the in-plane condition
the round trip loses the component of each point along the plane normal (see
the counterexample). -/
theorem convert_polar_round_trip (vertices : List Vec3) (x_axis y_axis : Vec3)
    (hx : Vec3.dot x_axis x_axis = 1) (hy : Vec3.dot y_axis y_axis = 1)
    (hxy : Vec3.dot x_axis y_axis = 0)
    (hmem : ∀ v ∈ vertices, Vec3.length v ≠ 0 ∧
      ∃ a b : ℝ, v = a • x_axis + b • y_axis) :
    convert_polar_to_polygon
      (convert_polygon_to_polar vertices x_axis y_axis) x_axis y_axis
      = vertices :=
  round_trip_loop x_axis y_axis hx hy hxy vertices hmem 0

/-- Witness for claim C3 at a concrete input: the single in-plane point
(1, 0, 0) with the standard basis round-trips to itself. -/
theorem convert_polar_round_trip_witness :
    Vec3.dot ⟨1, 0, 0⟩ ⟨1, 0, 0⟩ = 1 ∧
      Vec3.dot ⟨0, 1, 0⟩ ⟨0, 1, 0⟩ = 1 ∧
      Vec3.dot ⟨1, 0, 0⟩ ⟨0, 1, 0⟩ = 0 ∧
      (∀ v ∈ ([⟨1, 0, 0⟩] : List Vec3), Vec3.length v ≠ 0 ∧
        ∃ a b : ℝ, v = a • (⟨1, 0, 0⟩ : Vec3) + b • (⟨0, 1, 0⟩ : Vec3)) ∧
      convert_polar_to_polygon
        (convert_polygon_to_polar [⟨1, 0, 0⟩] ⟨1, 0, 0⟩ ⟨0, 1, 0⟩)
        ⟨1, 0, 0⟩ ⟨0, 1, 0⟩ = [⟨1, 0, 0⟩] := by
  have hx : Vec3.dot ⟨1, 0, 0⟩ ⟨1, 0, 0⟩ = 1 := by norm_num [Vec3.dot]
  have hy : Vec3.dot ⟨0, 1, 0⟩ ⟨0, 1, 0⟩ = 1 := by norm_num [Vec3.dot]
  have hxy : Vec3.dot ⟨1, 0, 0⟩ ⟨0, 1, 0⟩ = 0 := by norm_num [Vec3.dot]
  have hmem : ∀ v ∈ ([⟨1, 0, 0⟩] : List Vec3), Vec3.length v ≠ 0 ∧
      ∃ a b : ℝ, v = a • (⟨1, 0, 0⟩ : Vec3) + b • (⟨0, 1, 0⟩ : Vec3) := by
    intro v hv
    rw [List.mem_singleton] at hv
    subst hv
    constructor
    · simp [Vec3.length, Vec3.dot]
    · exact ⟨1, 0, by ext <;> simp⟩
  exact ⟨hx, hy, hxy, hmem,
    convert_polar_round_trip [⟨1, 0, 0⟩] ⟨1, 0, 0⟩ ⟨0, 1, 0⟩ hx hy hxy hmem⟩

/-- Counterexample to claim C3 as stated: the point (0, 0, 1) has non-zero
radius, and the basis is even orthonormal, yet the round trip returns
(1, 0, 0) instead of the original point, because projection onto the plane
discards the out-of-plane component. -/
theorem convert_polar_round_trip_counterexample :
    Vec3.length ⟨0, 0, 1⟩ ≠ 0 ∧
      convert_polar_to_polygon
        (convert_polygon_to_polar [⟨0, 0, 1⟩] ⟨1, 0, 0⟩ ⟨0, 1, 0⟩)
        ⟨1, 0, 0⟩ ⟨0, 1, 0⟩ ≠ [⟨0, 0, 1⟩] := by
  have hlen : Vec3.length (⟨0, 0, 1⟩ : Vec3) = 1 := by
    simp [Vec3.length, Vec3.dot]
  constructor
  · rw [hlen]; norm_num
  · have hz : (⟨0, 0⟩ : ℂ) = 0 := by apply Complex.ext <;> simp
    have hatan : atan2 0 0 = 0 := by rw [atan2, hz, Complex.arg_zero]
    have hd1 : Vec3.dot ⟨0, 0, 1⟩ ⟨1, 0, 0⟩ = 0 := by norm_num [Vec3.dot]
    have hd2 : Vec3.dot ⟨0, 0, 1⟩ ⟨0, 1, 0⟩ = 0 := by norm_num [Vec3.dot]
    have hu : unwrap_angle 0 0 = 0 := unwrap_angle_of_le 0 0 le_rfl
    have hpolar : convert_polygon_to_polar [⟨0, 0, 1⟩] ⟨1, 0, 0⟩ ⟨0, 1, 0⟩
        = [(1, 0)] := by
      simp only [convert_polygon_to_polar, convert_polygon_to_polar_loop,
        hd1, hd2, hatan, hu, hlen]
    rw [hpolar]
    intro h
    simp only [convert_polar_to_polygon, List.map_cons, List.map_nil,
      Real.cos_zero, Real.sin_zero, List.cons.injEq] at h
    have := congrArg Vec3.x h.1
    simp at this

end MakeHandle

namespace MakeHandle

/-- connect_vertices_with_prism from make_handle.py, with the emitted faces
returned as a list (the source emits each face through the host primitive
bmesh.ops.contextual_create; stitching them into the mesh model is done by
the caller, see stitch_rings below). When the first ring is shorter the
source recurses with the arguments swapped; otherwise it emits one
quadrilateral per index of the second ring followed by one triangle per
remaining index of the first ring, connecting to index 0 of the second
ring. -/
def connect_vertices_with_prism (vertices_1 vertices_2 : List ℕ) :
    List (List ℕ) :=
  if h : vertices_1.length < vertices_2.length then
    connect_vertices_with_prism vertices_2 vertices_1
  else
    ((List.range vertices_2.length).map fun i =>
      [vertices_1.getD i 0,
       vertices_1.getD ((i + 1) % vertices_1.length) 0,
       vertices_2.getD ((i + 1) % vertices_2.length) 0,
       vertices_2.getD i 0])
    ++ ((List.range' vertices_2.length
          (vertices_1.length - vertices_2.length)).map fun i =>
      [vertices_1.getD i 0,
       vertices_1.getD ((i + 1) % vertices_1.length) 0,
       vertices_2.getD 0 0])
termination_by (if vertices_1.length < vertices_2.length then 1 else 0)
decreasing_by
  rw [if_pos h, if_neg (Nat.not_lt.mpr (Nat.le_of_lt h))]
  exact Nat.zero_lt_one

theorem connect_vertices_with_prism_of_ge (v1 v2 : List ℕ)
    (h : v2.length ≤ v1.length) :
    connect_vertices_with_prism v1 v2 =
      ((List.range v2.length).map fun i =>
        [v1.getD i 0, v1.getD ((i + 1) % v1.length) 0,
         v2.getD ((i + 1) % v2.length) 0, v2.getD i 0])
      ++ ((List.range' v2.length (v1.length - v2.length)).map fun i =>
        [v1.getD i 0, v1.getD ((i + 1) % v1.length) 0, v2.getD 0 0]) := by
  rw [connect_vertices_with_prism]
  rw [dif_neg (Nat.not_lt.mpr h)]

theorem connect_vertices_with_prism_swap_lemma (v1 v2 : List ℕ)
    (h : v1.length < v2.length) :
    connect_vertices_with_prism v1 v2 = connect_vertices_with_prism v2 v1 := by
  conv_lhs => rw [connect_vertices_with_prism]
  rw [dif_pos h]

theorem connect_vertices_with_prism_length (A B : List ℕ)
    (hAB : B.length ≤ A.length) :
    (connect_vertices_with_prism A B).length = A.length := by
  rw [connect_vertices_with_prism_of_ge A B hAB]
  simp [List.length_range']
  omega

/-- Claim C4: for rings with at least one vertex in the smaller ring and the
first ring at least as long as the second, the ring stitcher emits exactly
one face per index of the larger ring: for i below the smaller ring's length
a quadrilateral with vertices ringA i, ringA (i+1 mod lenA), ringB (i+1 mod
lenB), ringB i, and for the remaining indices a triangle with vertices
ringA i, ringA (i+1 mod lenA) and ringB 0; the number of 4-vertex faces is
the smaller length and the number of 3-vertex faces is the difference, every
vertex of the larger ring appears in some face, and when the first ring is
shorter the function first swaps its arguments. Instantiating at lengths 6
and 4 gives exactly 4 quadrilaterals and 2 triangles with connection vertex
ringB 0. -/
theorem connect_vertices_with_prism_spec (A B : List ℕ)
    (hB : 1 ≤ B.length) (hAB : B.length ≤ A.length) :
    (connect_vertices_with_prism A B).length = A.length ∧
      (∀ i, i < B.length →
        (connect_vertices_with_prism A B).getD i [] =
          [A.getD i 0, A.getD ((i + 1) % A.length) 0,
           B.getD ((i + 1) % B.length) 0, B.getD i 0]) ∧
      (∀ i, B.length ≤ i → i < A.length →
        (connect_vertices_with_prism A B).getD i [] =
          [A.getD i 0, A.getD ((i + 1) % A.length) 0, B.getD 0 0]) ∧
      (connect_vertices_with_prism A B).countP (fun f => f.length == 4)
        = B.length ∧
      (connect_vertices_with_prism A B).countP (fun f => f.length == 3)
        = A.length - B.length ∧
      (∀ i, i < A.length →
        ∃ f ∈ connect_vertices_with_prism A B, A.getD i 0 ∈ f) ∧
      (∀ C D : List ℕ, C.length < D.length →
        connect_vertices_with_prism C D = connect_vertices_with_prism D C) := by
  have hlen := connect_vertices_with_prism_length A B hAB
  have heq := connect_vertices_with_prism_of_ge A B hAB
  have hquad : ∀ i, i < B.length →
      (connect_vertices_with_prism A B).getD i [] =
        [A.getD i 0, A.getD ((i + 1) % A.length) 0,
         B.getD ((i + 1) % B.length) 0, B.getD i 0] := by
    intro i hi
    rw [heq]
    have hmap : i < ((List.range B.length).map fun i =>
        [A.getD i 0, A.getD ((i + 1) % A.length) 0,
         B.getD ((i + 1) % B.length) 0, B.getD i 0]).length := by
      simpa using hi
    have htotal : i < (((List.range B.length).map fun i =>
        [A.getD i 0, A.getD ((i + 1) % A.length) 0,
         B.getD ((i + 1) % B.length) 0, B.getD i 0])
        ++ ((List.range' B.length (A.length - B.length)).map fun i =>
        [A.getD i 0, A.getD ((i + 1) % A.length) 0,
         B.getD 0 0])).length := by
      simp [List.length_range']
      omega
    rw [List.getD_eq_getElem _ _ htotal, List.getElem_append_left hmap]
    simp
  have htri : ∀ i, B.length ≤ i → i < A.length →
      (connect_vertices_with_prism A B).getD i [] =
        [A.getD i 0, A.getD ((i + 1) % A.length) 0, B.getD 0 0] := by
    intro i hBi hiA
    rw [heq]
    have htotal : i < (((List.range B.length).map fun i =>
        [A.getD i 0, A.getD ((i + 1) % A.length) 0,
         B.getD ((i + 1) % B.length) 0, B.getD i 0])
        ++ ((List.range' B.length (A.length - B.length)).map fun i =>
        [A.getD i 0, A.getD ((i + 1) % A.length) 0,
         B.getD 0 0])).length := by
      simp [List.length_range']
      omega
    rw [List.getD_eq_getElem _ _ htotal, List.getElem_append_right (by simpa using hBi)]
    simp only [List.getElem_map, List.getElem_range', List.length_map,
      List.length_range]
    have hidx : B.length + 1 * (i - B.length) = i := by omega
    rw [hidx]
  refine ⟨hlen, hquad, htri, ?_, ?_, ?_, ?_⟩
  · rw [heq, List.countP_append]
    have h1 : ((List.range B.length).map fun i =>
        [A.getD i 0, A.getD ((i + 1) % A.length) 0,
         B.getD ((i + 1) % B.length) 0, B.getD i 0]).countP
        (fun f => f.length == 4) = B.length := by
      rw [List.countP_eq_length.mpr]
      · simp
      · intro f hf
        simp only [List.mem_map] at hf
        obtain ⟨j, _, rfl⟩ := hf
        rfl
    have h2 : ((List.range' B.length (A.length - B.length)).map fun i =>
        [A.getD i 0, A.getD ((i + 1) % A.length) 0,
         B.getD 0 0]).countP (fun f => f.length == 4) = 0 := by
      rw [List.countP_eq_zero.mpr]
      intro f hf
      simp only [List.mem_map] at hf
      obtain ⟨j, _, rfl⟩ := hf
      simp
    rw [h1, h2]
    omega
  · rw [heq, List.countP_append]
    have h1 : ((List.range B.length).map fun i =>
        [A.getD i 0, A.getD ((i + 1) % A.length) 0,
         B.getD ((i + 1) % B.length) 0, B.getD i 0]).countP
        (fun f => f.length == 3) = 0 := by
      rw [List.countP_eq_zero.mpr]
      intro f hf
      simp only [List.mem_map] at hf
      obtain ⟨j, _, rfl⟩ := hf
      simp
    have h2 : ((List.range' B.length (A.length - B.length)).map fun i =>
        [A.getD i 0, A.getD ((i + 1) % A.length) 0,
         B.getD 0 0]).countP (fun f => f.length == 3)
        = A.length - B.length := by
      rw [List.countP_eq_length.mpr]
      · simp [List.length_range']
      · intro f hf
        simp only [List.mem_map] at hf
        obtain ⟨j, _, rfl⟩ := hf
        rfl
    rw [h1, h2]
    omega
  · intro i hi
    have hi' : i < (connect_vertices_with_prism A B).length := by omega
    refine ⟨(connect_vertices_with_prism A B).getD i [], ?_, ?_⟩
    · rw [List.getD_eq_getElem _ _ hi']
      exact List.getElem_mem hi'
    · by_cases hiB : i < B.length
      · rw [hquad i hiB]
        exact List.mem_cons_self _ _
      · rw [htri i (Nat.le_of_not_lt hiB) hi]
        exact List.mem_cons_self _ _
  · intro C D h
    exact connect_vertices_with_prism_swap_lemma C D h

/-- Witness for claim C4 at concrete rings of 6 and 4 vertices. -/
theorem connect_vertices_with_prism_spec_witness :
    1 ≤ [6, 7, 8, 9].length ∧ [6, 7, 8, 9].length ≤ [0, 1, 2, 3, 4, 5].length ∧
      ((connect_vertices_with_prism [0, 1, 2, 3, 4, 5] [6, 7, 8, 9]).length
          = [0, 1, 2, 3, 4, 5].length ∧
        (∀ i, i < [6, 7, 8, 9].length →
          (connect_vertices_with_prism [0, 1, 2, 3, 4, 5] [6, 7, 8, 9]).getD i []
            = [[0, 1, 2, 3, 4, 5].getD i 0,
               [0, 1, 2, 3, 4, 5].getD ((i + 1) % [0, 1, 2, 3, 4, 5].length) 0,
               [6, 7, 8, 9].getD ((i + 1) % [6, 7, 8, 9].length) 0,
               [6, 7, 8, 9].getD i 0]) ∧
        (∀ i, [6, 7, 8, 9].length ≤ i → i < [0, 1, 2, 3, 4, 5].length →
          (connect_vertices_with_prism [0, 1, 2, 3, 4, 5] [6, 7, 8, 9]).getD i []
            = [[0, 1, 2, 3, 4, 5].getD i 0,
               [0, 1, 2, 3, 4, 5].getD ((i + 1) % [0, 1, 2, 3, 4, 5].length) 0,
               [6, 7, 8, 9].getD 0 0]) ∧
        (connect_vertices_with_prism [0, 1, 2, 3, 4, 5] [6, 7, 8, 9]).countP
            (fun f => f.length == 4) = [6, 7, 8, 9].length ∧
        (connect_vertices_with_prism [0, 1, 2, 3, 4, 5] [6, 7, 8, 9]).countP
            (fun f => f.length == 3)
          = [0, 1, 2, 3, 4, 5].length - [6, 7, 8, 9].length ∧
        (∀ i, i < [0, 1, 2, 3, 4, 5].length →
          ∃ f ∈ connect_vertices_with_prism [0, 1, 2, 3, 4, 5] [6, 7, 8, 9],
            [0, 1, 2, 3, 4, 5].getD i 0 ∈ f) ∧
        (∀ C D : List ℕ, C.length < D.length →
          connect_vertices_with_prism C D = connect_vertices_with_prism D C)) :=
  ⟨by decide, by decide,
    connect_vertices_with_prism_spec [0, 1, 2, 3, 4, 5] [6, 7, 8, 9]
      (by decide) (by decide)⟩

end MakeHandle

namespace MakeHandle

/-- The padding step of make_handle (the two branches that extend the shorter
of the two centroid-relative point lists with copies of its first point until
the lengths match), factored as a definition. The source reads the first
point with Python indexing, which would raise on an empty list; here headD
with default 0 is used, and make_handle only reaches this step with nonempty
faces, where both agree. -/
def pad_points (points_1 points_2 : List Vec3) : List Vec3 × List Vec3 :=
  if points_1.length > points_2.length then
    (points_1, points_2 ++ List.replicate
      (points_1.length - points_2.length) (points_2.headD 0))
  else if points_2.length > points_1.length then
    (points_1 ++ List.replicate
      (points_2.length - points_1.length) (points_1.headD 0), points_2)
  else
    (points_1, points_2)

/-- The untwist correction of make_handle, factored as a definition: when the
angle of the first point of polygon 2 exceeds the angle of the first point of
polygon 1 by more than pi, subtract 2 pi from every angle of polygon 2. -/
noncomputable def untwist_points_2
    (points_1_polar points_2_polar : List (ℝ × ℝ)) : List (ℝ × ℝ) :=
  if (points_2_polar.headD (0, 0)).2 - (points_1_polar.headD (0, 0)).2
      > Real.pi then
    points_2_polar.map fun p => (p.1, p.2 - 2 * Real.pi)
  else
    points_2_polar

/-- The twist application of make_handle, factored as a definition: add
2 pi times the requested twist count to every angle of polygon 2. -/
noncomputable def apply_twists
    (points_2_polar : List (ℝ × ℝ)) (twists : ℤ) : List (ℝ × ℝ) :=
  points_2_polar.map fun p => (p.1, p.2 + 2 * Real.pi * (twists : ℝ))

/-- The x-axis search of make_handle: scan the indices of the aligned first
ring for the first edge (from the cyclically previous vertex) of length at
least 1e-10 and return it normalized; none models the RuntimeError raised by
the for-else when every edge is shorter. The Python index (i - 1) % n is
written (i + n - 1) % n, which is equal for 0 <= i < n. -/
noncomputable def find_x_axis (vertices_1 : List Vec3) : Option Vec3 :=
  (List.range vertices_1.length).findSome? fun i =>
    let displacement :=
      vertices_1.getD ((i + vertices_1.length - 1) % vertices_1.length) 0
        - vertices_1.getD i 0
    if Vec3.length displacement ≥ 1 / 10 ^ 10 then
      some (Vec3.normalize displacement)
    else
      none

/-- Error taxonomy of make_handle: the two RuntimeError raises for a start
vertex not on its face, the for-else RuntimeError for a degenerate face, and
the IndexError that Python would raise on out-of-range list indexing. -/
inductive HandleError where
  | invalidVertexSelection
  | degenerateFace
  | indexError
deriving DecidableEq

/-- A host mesh face: an identifier, the ordered ring of vertex identifiers,
and the unit normal maintained by the host. -/
structure Face where
  id : ℕ
  verts : List ℕ
  normal : Vec3

/-- The host mesh: the list of vertex identifiers, their coordinates, the
faces, and a counter supplying fresh identifiers. -/
structure Mesh where
  verts : List ℕ
  co : ℕ → Vec3
  faces : List Face
  next_id : ℕ

/-- Model of bmesh.ops.create_vert: returns the extended mesh and the new
vertex identifier. -/
def create_vert (mesh : Mesh) (position : Vec3) : Mesh × ℕ :=
  (⟨mesh.verts ++ [mesh.next_id],
    fun i => if i = mesh.next_id then position else mesh.co i,
    mesh.faces, mesh.next_id + 1⟩, mesh.next_id)

/-- Model of bmesh.ops.contextual_create on a list of vertices: appends a new
face over those vertices. The host computes the new face's normal; the
algorithm never reads normals of faces it creates, so the model stores 0. -/
def contextual_create (mesh : Mesh) (geom : List ℕ) : Mesh :=
  { mesh with
    faces := mesh.faces ++ [⟨mesh.next_id, geom, 0⟩],
    next_id := mesh.next_id + 1 }

/-- Model of bmesh.ops.delete with context FACES_ONLY on a single face:
removes that face, keeping its vertices and edges. -/
def delete_face (mesh : Mesh) (face : Face) : Mesh :=
  { mesh with faces := mesh.faces.filter fun f => f.id ≠ face.id }

/-- Sum of a list of vectors, as the source's loop that starts from the zero
vector and adds each vertex coordinate. -/
def vec_sum (l : List Vec3) : Vec3 := l.foldl (· + ·) 0

/-- get_centroid from the source: the arithmetic mean of the coordinates of
the face's vertices (the source divides the sum by the vertex count). -/
noncomputable def get_centroid (mesh : Mesh) (face : Face) : Vec3 :=
  ((face.verts.length : ℝ))⁻¹ • vec_sum (face.verts.map mesh.co)

/-- One vertex-creation pass of the ring loop of make_handle: create a vertex
for each point of the polygon, collecting the new identifiers in order. -/
def create_ring_vertices (mesh : Mesh) (polygon : List Vec3) :
    Mesh × List ℕ :=
  polygon.foldl
    (fun acc point =>
      let created := create_vert acc.1 point
      (created.1, acc.2 ++ [created.2]))
    (mesh, [])

/-- The interior-ring loop of make_handle: for each parameter t, compute the
spline centroid and normal, interpolate the two polar polygons (none models
the IndexError Python would raise on mismatched lengths, carrying the mesh as
mutated so far), reconstruct the 3D polygon, re-orient and translate it, and
create one vertex per point; returns the final mesh and the interior rings in
order. -/
noncomputable def build_interior_rings
    (centroid_1 normal_1 centroid_2 normal_2 : Vec3) (weight : ℝ)
    (points_1_polar points_2_polar : List (ℝ × ℝ))
    (x_axis y_axis rotation_plane_normal : Vec3) :
    List ℝ → Mesh → Except (HandleError × Mesh) (Mesh × List (List ℕ))
  | [], mesh => .ok (mesh, [])
  | t :: ts, mesh =>
    match interpolate_polar_polygons points_1_polar points_2_polar t with
    | none => .error (.indexError, mesh)
    | some polygon_polar =>
      let centroid :=
        get_handle_centroid centroid_1 normal_1 centroid_2 normal_2 t weight
      let normal :=
        get_handle_normal centroid_1 normal_1 centroid_2 normal_2 t weight
      let polygon := convert_polar_to_polygon polygon_polar x_axis y_axis
      let polygon_rotated :=
        rotate_polygon_to_new_normal polygon rotation_plane_normal normal
      let polygon_translated := polygon_rotated.map (· + centroid)
      let created := create_ring_vertices mesh polygon_translated
      match build_interior_rings centroid_1 normal_1 centroid_2 normal_2
          weight points_1_polar points_2_polar x_axis y_axis
          rotation_plane_normal ts created.1 with
      | .error e => .error e
      | .ok result => .ok (result.1, created.2 :: result.2)

/-- The stitching loop of make_handle: connect each consecutive pair of rings
with the ring stitcher, creating every emitted face in the mesh. -/
def stitch_rings (mesh : Mesh) (rings : List (List ℕ)) : Mesh :=
  (rings.zip rings.tail).foldl
    (fun m pair =>
      (connect_vertices_with_prism pair.1 pair.2).foldl contextual_create m)
    mesh

/-- make_handle from the source, with errors modelled as an Except value
carrying the mesh at the moment of the raise: validate the two start
vertices, rotate both rings so the start vertices come first (reversing the
second face's ring), translate to centroid-relative points, pad the shorter
list, align both rings into the plane of the centroid displacement, find the
x-axis, project to polar form, apply the untwist correction and the
requested twists, build the interior rings, stitch consecutive rings, and
delete the two original faces. -/
noncomputable def make_handle (mesh : Mesh) (face_1 : Face) (vertex_1 : ℕ)
    (face_2 : Face) (vertex_2 : ℕ) (num_segments : ℕ) (weight : ℝ)
    (twists : ℤ) : Except (HandleError × Mesh) Mesh :=
  if vertex_1 ∈ face_1.verts then
    if vertex_2 ∈ face_2.verts then
      let normal_1 := face_1.normal
      let normal_2 := -face_2.normal
      let centroid_1 := get_centroid mesh face_1
      let centroid_2 := get_centroid mesh face_2
      let original_vertices_1 :=
        rotate_list face_1.verts (face_1.verts.indexOf vertex_1)
      let reversed_verts_2 := face_2.verts.reverse
      let original_vertices_2 :=
        rotate_list reversed_verts_2 (reversed_verts_2.indexOf vertex_2)
      let padded := pad_points
        (original_vertices_1.map fun v => mesh.co v - centroid_1)
        (original_vertices_2.map fun v => mesh.co v - centroid_2)
      let rotation_plane_normal := Vec3.normalize (centroid_2 - centroid_1)
      let vertices_1 :=
        rotate_polygon_to_new_normal padded.1 normal_1 rotation_plane_normal
      let vertices_2 :=
        rotate_polygon_to_new_normal padded.2 normal_2 rotation_plane_normal
      match find_x_axis vertices_1 with
      | none => .error (.degenerateFace, mesh)
      | some x_axis =>
        let y_axis := Vec3.cross rotation_plane_normal x_axis
        let points_1_polar := convert_polygon_to_polar vertices_1 x_axis y_axis
        let points_2_polar := apply_twists
          (untwist_points_2 points_1_polar
            (convert_polygon_to_polar vertices_2 x_axis y_axis))
          twists
        let ts := (List.range' 1 (num_segments - 1)).map
          fun i => (i : ℝ) / (num_segments : ℝ)
        match build_interior_rings centroid_1 normal_1 centroid_2 normal_2
            weight points_1_polar points_2_polar x_axis y_axis
            rotation_plane_normal ts mesh with
        | .error e => .error e
        | .ok built =>
          let rings := original_vertices_1 :: (built.2 ++ [original_vertices_2])
          let stitched := stitch_rings built.1 rings
          .ok (delete_face (delete_face stitched face_1) face_2)
    else .error (.invalidVertexSelection, mesh)
  else .error (.invalidVertexSelection, mesh)

end MakeHandle

namespace MakeHandle

/-- Claim C7: after projection to polar form, if the angular offset between
the two rings' first points exceeds pi then the untwist correction subtracts
2 pi from every angle of ring 2, and only then is 2 pi times the twist count
added to every angle of ring 2 (make_handle applies apply_twists to the
result of untwist_points_2); and when the twist count is 0 and the offset is
less than pi, ring 2's polar list is returned unchanged before
interpolation. -/
theorem make_handle_twist_correction
    (points_1_polar points_2_polar : List (ℝ × ℝ)) (twists : ℤ) :
    ((points_2_polar.headD (0, 0)).2 - (points_1_polar.headD (0, 0)).2
        > Real.pi →
      untwist_points_2 points_1_polar points_2_polar
        = points_2_polar.map (fun p => (p.1, p.2 - 2 * Real.pi)) ∧
      apply_twists (untwist_points_2 points_1_polar points_2_polar) twists
        = points_2_polar.map
            (fun p => (p.1, p.2 - 2 * Real.pi + 2 * Real.pi * (twists : ℝ)))) ∧
    (twists = 0 →
      (points_2_polar.headD (0, 0)).2 - (points_1_polar.headD (0, 0)).2
        < Real.pi →
      apply_twists (untwist_points_2 points_1_polar points_2_polar) twists
        = points_2_polar) := by
  constructor
  · intro hgt
    have huntwist : untwist_points_2 points_1_polar points_2_polar
        = points_2_polar.map (fun p => (p.1, p.2 - 2 * Real.pi)) := by
      rw [untwist_points_2, if_pos hgt]
    refine ⟨huntwist, ?_⟩
    rw [apply_twists, huntwist, List.map_map]
    rfl
  · intro htw hlt
    have huntwist : untwist_points_2 points_1_polar points_2_polar
        = points_2_polar := by
      rw [untwist_points_2, if_neg (not_lt.mpr (le_of_lt hlt))]
    rw [apply_twists, huntwist, htw]
    simp

/-- Witness for claim C7 at concrete inputs: first-point angles 0 and 4
(offset 4, above pi) with one twist, and first-point angles 0 and 1 (offset
1, below pi) with zero twists. -/
theorem make_handle_twist_correction_witness :
    ((([((0:ℝ), (4:ℝ))].headD (0, 0)).2
          - ([((0:ℝ), (0:ℝ))].headD (0, 0)).2 > Real.pi) ∧
      untwist_points_2 [((0:ℝ), (0:ℝ))] [((0:ℝ), (4:ℝ))]
        = [((0:ℝ), (4:ℝ))].map (fun p => (p.1, p.2 - 2 * Real.pi)) ∧
      apply_twists (untwist_points_2 [((0:ℝ), (0:ℝ))] [((0:ℝ), (4:ℝ))]) 1
        = [((0:ℝ), (4:ℝ))].map
            (fun p => (p.1, p.2 - 2 * Real.pi + 2 * Real.pi * ((1:ℤ) : ℝ)))) ∧
    ((([((0:ℝ), (1:ℝ))].headD (0, 0)).2
          - ([((0:ℝ), (0:ℝ))].headD (0, 0)).2 < Real.pi) ∧
      apply_twists (untwist_points_2 [((0:ℝ), (0:ℝ))] [((0:ℝ), (1:ℝ))]) 0
        = [((0:ℝ), (1:ℝ))]) := by
  have hgt : (([((0:ℝ), (4:ℝ))].headD (0, 0)).2
      - ([((0:ℝ), (0:ℝ))].headD (0, 0)).2 > Real.pi) := by
    simp only [List.headD_cons]
    have := Real.pi_lt_d2
    linarith
  have hlt : (([((0:ℝ), (1:ℝ))].headD (0, 0)).2
      - ([((0:ℝ), (0:ℝ))].headD (0, 0)).2 < Real.pi) := by
    simp only [List.headD_cons]
    have := Real.pi_gt_three
    linarith
  exact ⟨⟨hgt,
      ((make_handle_twist_correction [((0:ℝ), (0:ℝ))] [((0:ℝ), (4:ℝ))] 1).1
        hgt).1,
      ((make_handle_twist_correction [((0:ℝ), (0:ℝ))] [((0:ℝ), (4:ℝ))] 1).1
        hgt).2⟩,
    ⟨hlt,
      (make_handle_twist_correction [((0:ℝ), (0:ℝ))] [((0:ℝ), (1:ℝ))] 0).2
        rfl hlt⟩⟩

end MakeHandle

namespace MakeHandle

theorem length_rotate_polygon_to_new_normal (l : List Vec3) (a b : Vec3) :
    (rotate_polygon_to_new_normal l a b).length = l.length := by
  rw [rotate_polygon_to_new_normal]
  split <;> simp

theorem length_convert_polygon_to_polar_loop (x_axis y_axis : Vec3)
    (l : List Vec3) : ∀ last_angle,
    (convert_polygon_to_polar_loop x_axis y_axis l last_angle).length
      = l.length := by
  induction l with
  | nil => intro _; rfl
  | cons v rest ih =>
    intro last_angle
    simp only [convert_polygon_to_polar_loop, List.length_cons, ih]

theorem length_convert_polygon_to_polar (l : List Vec3) (x_axis y_axis : Vec3) :
    (convert_polygon_to_polar l x_axis y_axis).length = l.length :=
  length_convert_polygon_to_polar_loop x_axis y_axis l 0

theorem length_convert_polar_to_polygon (l : List (ℝ × ℝ))
    (x_axis y_axis : Vec3) :
    (convert_polar_to_polygon l x_axis y_axis).length = l.length := by
  simp [convert_polar_to_polygon]

theorem interpolate_polar_polygons_some_length
    (t : ℝ) : ∀ (p1 p2 r : List (ℝ × ℝ)),
    interpolate_polar_polygons p1 p2 t = some r → r.length = p1.length := by
  intro p1
  induction p1 with
  | nil =>
    intro p2 r h
    simp only [interpolate_polar_polygons, Option.some.injEq] at h
    simp [← h]
  | cons p ps ih =>
    intro p2 r h
    cases p2 with
    | nil => simp [interpolate_polar_polygons] at h
    | cons q qs =>
      simp only [interpolate_polar_polygons, Option.map_eq_some'] at h
      obtain ⟨rest, hrest, rfl⟩ := h
      simp [ih qs rest hrest]

theorem create_ring_vertices_go_length (polygon : List Vec3) :
    ∀ (mesh : Mesh) (ids : List ℕ),
      ((polygon.foldl
        (fun acc point =>
          let created := create_vert acc.1 point
          (created.1, acc.2 ++ [created.2])) (mesh, ids)).2).length
        = ids.length + polygon.length := by
  induction polygon with
  | nil => intro mesh ids; simp
  | cons p ps ih =>
    intro mesh ids
    simp only [List.foldl_cons]
    rw [ih]
    simp
    omega

theorem create_ring_vertices_length (mesh : Mesh) (polygon : List Vec3) :
    (create_ring_vertices mesh polygon).2.length = polygon.length := by
  rw [create_ring_vertices, create_ring_vertices_go_length]
  simp

theorem build_interior_rings_ok_lengths
    (c1 n1 c2 n2 : Vec3) (w : ℝ) (p1p p2p : List (ℝ × ℝ))
    (xa ya rpn : Vec3) :
    ∀ (ts : List ℝ) (mesh m : Mesh) (rings : List (List ℕ)),
      build_interior_rings c1 n1 c2 n2 w p1p p2p xa ya rpn ts mesh
        = .ok (m, rings) →
      ∀ r ∈ rings, r.length = p1p.length := by
  intro ts
  induction ts with
  | nil =>
    intro mesh m rings h r hr
    simp only [build_interior_rings, Except.ok.injEq, Prod.mk.injEq] at h
    rw [← h.2] at hr
    simp at hr
  | cons t ts ih =>
    intro mesh m rings h r hr
    rw [build_interior_rings] at h
    cases hint : interpolate_polar_polygons p1p p2p t with
    | none => rw [hint] at h; simp at h
    | some polygon_polar =>
      rw [hint] at h
      simp only at h
      cases hb : build_interior_rings c1 n1 c2 n2 w p1p p2p xa ya rpn ts
          (create_ring_vertices mesh
            ((rotate_polygon_to_new_normal
              (convert_polar_to_polygon polygon_polar xa ya) rpn
              (get_handle_normal c1 n1 c2 n2 t w)).map
              (· + get_handle_centroid c1 n1 c2 n2 t w))).1 with
      | error e => rw [hb] at h; simp at h
      | ok pr =>
        obtain ⟨m2, rs⟩ := pr
        rw [hb] at h
        simp only [Except.ok.injEq, Prod.mk.injEq] at h
        rw [← h.2] at hr
        rcases List.mem_cons.mp hr with hr1 | hr2
        · rw [hr1]
          rw [create_ring_vertices_length]
          rw [List.length_map, length_rotate_polygon_to_new_normal,
            length_convert_polar_to_polygon]
          exact interpolate_polar_polygons_some_length t p1p p2p
            polygon_polar hint
        · exact ih _ m2 rs hb r hr2

/-- Claim C6: when the two faces' centroid-relative point lists have
different lengths, the padding step extends the shorter list by repeating
its first point until both lists have length max(len1, len2), leaving the
longer list unchanged; and every interior ring that the ring-building loop
creates from the polar projection of the padded first list has exactly
max(len1, len2) vertices (the polar projection and the plane alignment
preserve list length, each interpolated polar ring has the length of the
first polar list, and one vertex is created per point). -/
theorem make_handle_padding_and_ring_lengths (points_1 points_2 : List Vec3)
    (h : points_1.length ≠ points_2.length) :
    (pad_points points_1 points_2).1.length
        = max points_1.length points_2.length ∧
      (pad_points points_1 points_2).2.length
        = max points_1.length points_2.length ∧
      (points_2.length < points_1.length →
        pad_points points_1 points_2
          = (points_1, points_2 ++ List.replicate
              (points_1.length - points_2.length) (points_2.headD 0))) ∧
      (points_1.length < points_2.length →
        pad_points points_1 points_2
          = (points_1 ++ List.replicate
              (points_2.length - points_1.length) (points_1.headD 0),
             points_2)) ∧
      (∀ (c1 n1 c2 n2 old_normal rpn xa ya : Vec3) (w : ℝ)
          (p2p : List (ℝ × ℝ)) (ts : List ℝ) (mesh m : Mesh)
          (rings : List (List ℕ)),
        build_interior_rings c1 n1 c2 n2 w
            (convert_polygon_to_polar
              (rotate_polygon_to_new_normal (pad_points points_1 points_2).1
                old_normal rpn) xa ya)
            p2p xa ya rpn ts mesh = .ok (m, rings) →
        ∀ r ∈ rings, r.length = max points_1.length points_2.length) := by
  have hfirst : (pad_points points_1 points_2).1.length
      = max points_1.length points_2.length ∧
      (pad_points points_1 points_2).2.length
        = max points_1.length points_2.length := by
    by_cases h1 : points_1.length > points_2.length
    · rw [pad_points, if_pos h1]
      constructor
      · simp; omega
      · simp; omega
    · have h2 : points_2.length > points_1.length := by omega
      rw [pad_points, if_neg h1, if_pos h2]
      constructor
      · simp; omega
      · simp; omega
  refine ⟨hfirst.1, hfirst.2, ?_, ?_, ?_⟩
  · intro h21
    rw [pad_points, if_pos h21]
  · intro h12
    rw [pad_points, if_neg (by omega), if_pos h12]
  · intro c1 n1 c2 n2 old_normal rpn xa ya w p2p ts mesh m rings hb r hr
    have := build_interior_rings_ok_lengths c1 n1 c2 n2 w _ p2p xa ya rpn
      ts mesh m rings hb r hr
    rw [this, length_convert_polygon_to_polar,
      length_rotate_polygon_to_new_normal, hfirst.1]

/-- Witness for claim C6 at a concrete input: a two-point first list and a
one-point second list (lengths 2 and 1). -/
theorem make_handle_padding_and_ring_lengths_witness :
    ([(0 : Vec3), 0].length ≠ [(0 : Vec3)].length) ∧
      ((pad_points [(0 : Vec3), 0] [(0 : Vec3)]).1.length
          = max [(0 : Vec3), 0].length [(0 : Vec3)].length ∧
        (pad_points [(0 : Vec3), 0] [(0 : Vec3)]).2.length
          = max [(0 : Vec3), 0].length [(0 : Vec3)].length ∧
        ([(0 : Vec3)].length < [(0 : Vec3), 0].length →
          pad_points [(0 : Vec3), 0] [(0 : Vec3)]
            = ([(0 : Vec3), 0], [(0 : Vec3)] ++ List.replicate
                ([(0 : Vec3), 0].length - [(0 : Vec3)].length)
                ([(0 : Vec3)].headD 0))) ∧
        ([(0 : Vec3), 0].length < [(0 : Vec3)].length →
          pad_points [(0 : Vec3), 0] [(0 : Vec3)]
            = ([(0 : Vec3), 0] ++ List.replicate
                ([(0 : Vec3)].length - [(0 : Vec3), 0].length)
                ([(0 : Vec3), 0].headD 0), [(0 : Vec3)])) ∧
        (∀ (c1 n1 c2 n2 old_normal rpn xa ya : Vec3) (w : ℝ)
            (p2p : List (ℝ × ℝ)) (ts : List ℝ) (mesh m : Mesh)
            (rings : List (List ℕ)),
          build_interior_rings c1 n1 c2 n2 w
              (convert_polygon_to_polar
                (rotate_polygon_to_new_normal
                  (pad_points [(0 : Vec3), 0] [(0 : Vec3)]).1
                  old_normal rpn) xa ya)
              p2p xa ya rpn ts mesh = .ok (m, rings) →
          ∀ r ∈ rings,
            r.length = max [(0 : Vec3), 0].length [(0 : Vec3)].length)) :=
  ⟨by decide,
    make_handle_padding_and_ring_lengths [(0 : Vec3), 0] [(0 : Vec3)]
      (by decide)⟩

end MakeHandle

namespace MakeHandle

theorem build_interior_rings_no_ivs
    (c1 n1 c2 n2 : Vec3) (w : ℝ) (p1p p2p : List (ℝ × ℝ))
    (xa ya rpn : Vec3) :
    ∀ (ts : List ℝ) (mesh m : Mesh),
      build_interior_rings c1 n1 c2 n2 w p1p p2p xa ya rpn ts mesh
        ≠ .error (.invalidVertexSelection, m) := by
  intro ts
  induction ts with
  | nil => intro mesh m h; simp [build_interior_rings] at h
  | cons t ts ih =>
    intro mesh m h
    rw [build_interior_rings] at h
    cases hint : interpolate_polar_polygons p1p p2p t with
    | none =>
      rw [hint] at h
      simp at h
    | some polygon_polar =>
      rw [hint] at h
      simp only at h
      cases hb : build_interior_rings c1 n1 c2 n2 w p1p p2p xa ya rpn ts
          (create_ring_vertices mesh
            ((rotate_polygon_to_new_normal
              (convert_polar_to_polygon polygon_polar xa ya) rpn
              (get_handle_normal c1 n1 c2 n2 t w)).map
              (· + get_handle_centroid c1 n1 c2 n2 t w))).1 with
      | error e =>
        obtain ⟨e1, m1⟩ := e
        rw [hb] at h
        simp only [Except.error.injEq, Prod.mk.injEq] at h
        rw [h.1, h.2] at hb
        exact ih _ m hb
      | ok pr =>
        rw [hb] at h
        simp at h

/-- Claim C5: make_handle fails with the invalid-vertex-selection error if
and only if start vertex 1 is not in face 1's ring or start vertex 2 is not
in face 2's ring; and whenever it fails this way the error carries the input
mesh unchanged, because the two membership checks run before any vertex or
face is created and before any face is deleted. -/
theorem make_handle_invalid_vertex_selection
    (mesh : Mesh) (face_1 : Face) (vertex_1 : ℕ) (face_2 : Face)
    (vertex_2 : ℕ) (num_segments : ℕ) (weight : ℝ) (twists : ℤ) :
    ((∃ m, make_handle mesh face_1 vertex_1 face_2 vertex_2 num_segments
        weight twists = .error (.invalidVertexSelection, m)) ↔
      (vertex_1 ∉ face_1.verts ∨ vertex_2 ∉ face_2.verts)) ∧
    ((vertex_1 ∉ face_1.verts ∨ vertex_2 ∉ face_2.verts) →
      make_handle mesh face_1 vertex_1 face_2 vertex_2 num_segments weight
        twists = .error (.invalidVertexSelection, mesh)) := by
  have hdir : (vertex_1 ∉ face_1.verts ∨ vertex_2 ∉ face_2.verts) →
      make_handle mesh face_1 vertex_1 face_2 vertex_2 num_segments weight
        twists = .error (.invalidVertexSelection, mesh) := by
    intro hcase
    by_cases h1 : vertex_1 ∈ face_1.verts
    · have h2 : vertex_2 ∉ face_2.verts := by tauto
      unfold make_handle
      rw [if_pos h1, if_neg h2]
    · unfold make_handle
      rw [if_neg h1]
  refine ⟨⟨?_, fun hc => ⟨mesh, hdir hc⟩⟩, hdir⟩
  rintro ⟨m, hm⟩
  by_contra hcon
  push_neg at hcon
  obtain ⟨h1, h2⟩ := hcon
  unfold make_handle at hm
  rw [if_pos h1, if_pos h2] at hm
  simp only at hm
  split at hm
  · simp at hm
  · split at hm
    · rename_i e heq
      obtain ⟨e1, m1⟩ := e
      simp only [Except.error.injEq, Prod.mk.injEq] at hm
      rw [hm.1, hm.2] at heq
      exact build_interior_rings_no_ivs _ _ _ _ _ _ _ _ _ _ _ _ _ heq
    · simp at hm

/-- Witness for claim C5 at a concrete input: a mesh with an empty face, so
that the start vertex is not on its face and make_handle fails with the
invalid-vertex-selection error, returning the mesh unchanged. -/
theorem make_handle_invalid_vertex_selection_witness :
    ((0 : ℕ) ∉ (Face.mk 0 [] 0).verts ∨ (0 : ℕ) ∉ (Face.mk 1 [] 0).verts) ∧
      make_handle ⟨[], fun _ => 0, [], 0⟩ (Face.mk 0 [] 0) 0 (Face.mk 1 [] 0)
          0 1 0 0
        = .error (.invalidVertexSelection, ⟨[], fun _ => 0, [], 0⟩) :=
  ⟨Or.inl (by simp),
    (make_handle_invalid_vertex_selection ⟨[], fun _ => 0, [], 0⟩
        (Face.mk 0 [] 0) 0 (Face.mk 1 [] 0) 0 1 0 0).2
      (Or.inl (by simp))⟩

end MakeHandle
